import Mathlib

/-!
Shallow embedding of the tracvote plugin's vote store
(`tracvote/__init__.py`, class `VoteSystem`).

The persisted `votes` table is modelled as a list of rows in insertion
order.  The database methods `get_vote_count`, `get_vote` and `set_vote`
are translated statement by statement from the SQL they execute; the
request handler `process_request` is reduced to its store effect, and the
helpers `str_count` and `normalise_resource` are translated directly.
The anonymous `req` identity (`get_reporter_id(req)`) is passed as an
explicit `username` string.
-/

/-- Rows of the persisted table `votes(resource TEXT, username TEXT, vote INTEGER)`. -/
structure Row where
  resource : String
  username : String
  vote : Int
deriving DecidableEq

/-- The `votes` table: the list of its rows in insertion order. -/
abbrev DB := List Row

/-- Leading part of Python `str.strip('/')` on the character list. -/
def lstripSlash (l : List Char) : List Char := l.dropWhile (fun c => c == '/')

/-- Trailing part of Python `str.strip('/')` on the character list. -/
def rstripSlash (l : List Char) : List Char :=
  (l.reverse.dropWhile (fun c => c == '/')).reverse

/-- Python `s.strip('/')`: remove every leading and trailing `'/'` character. -/
def stripSlash (l : List Char) : List Char := rstripSlash (lstripSlash l)

/-- Python `resource.strip('/')` lifted to `String`. -/
def pyStripSlash (s : String) : String := ⟨stripSlash s.data⟩

/-- Method `VoteSystem.normalise_resource` on string resources: strip the
slashes, then special-case the start page (`resource += '/WikiStart'` when the
stripped resource is `"wiki"`). -/
def normalise_resource (s : String) : String :=
  let resource := pyStripSlash s
  if resource = "wiki" then resource ++ "/WikiStart" else resource

/-- SQL `SELECT sum(vote) FROM votes WHERE resource=%s`: `none` models the SQL
`NULL` that `sum` returns when no row matches. -/
def sql_sum_votes (db : DB) (resource : String) : Option Int :=
  let rows := db.filter (fun row => row.resource == resource)
  if rows.isEmpty then none else some ((rows.map Row.vote).sum)

/-- Method `VoteSystem.get_vote_count`: the Python `row[0] or 0` turns both a
`NULL` and a zero sum into the integer `0`. -/
def get_vote_count (db : DB) (resource : String) : Int :=
  let resource := normalise_resource resource
  match sql_sum_votes db resource with
  | none => 0
  | some s => if s = 0 then 0 else s

/-- Method `VoteSystem.get_vote`: first row of
`SELECT vote FROM votes WHERE username=%s AND resource=%s`; the Python
`vote = row and row[0] or 0` yields `0` when no row exists (and also when the
stored vote is `0`). -/
def get_vote (db : DB) (username resource : String) : Int :=
  let resource := normalise_resource resource
  match db.find? (fun row => row.username == username && row.resource == resource) with
  | none => 0
  | some row => if row.vote = 0 then 0 else row.vote

/-- Method `VoteSystem.set_vote`:
`DELETE FROM votes WHERE username=%s AND resource=%s`, then insert the new row
only when the vote is non-zero (Python `if vote:`). -/
def set_vote (db : DB) (username resource : String) (vote : Int) : DB :=
  let resource := normalise_resource resource
  let deleted :=
    db.filter (fun row => !(row.username == username && row.resource == resource))
  if vote = 0 then deleted else deleted ++ [⟨resource, username, vote⟩]

/-- Direction-to-vote mapping in `process_request`:
`vote = vote == 'up' and +1 or -1`. -/
def dir_vote (dir : String) : Int := if dir == "up" then 1 else -1

/-- Method `VoteSystem.process_request`, reduced to its store effect: normalise
the resource, read the caller's old vote, toggle off (store `0`) when it equals
the requested direction, otherwise store the requested direction.  Returns the
new table together with the effective vote used for the response. -/
def process_request (db : DB) (username dir resource : String) : DB × Int :=
  let resource := normalise_resource resource
  let vote := dir_vote dir
  let old_vote := get_vote db username resource
  if old_vote = vote then (set_vote db username resource 0, 0)
  else (set_vote db username resource vote, vote)

/-- Python `'%+i' % vote`: decimal rendering with an explicit sign character. -/
def format_plus_i (v : Int) : String :=
  (if v < 0 then "-" else "+") ++ toString v.natAbs

/-- Method `VoteSystem.str_count`. -/
def str_count (db : DB) (resource : String) : String :=
  format_plus_i (get_vote_count db resource)

/-- One write against the store: a call to `set_vote`. -/
inductive Op where
  | set : (username resource : String) → (vote : Int) → Op
deriving DecidableEq

/-- Apply one operation to the table. -/
def applyOp (db : DB) : Op → DB
  | Op.set u r v => set_vote db u r v

/-- The table reached from the empty table by a sequence of `set_vote` calls. -/
def run (ops : List Op) : DB := ops.foldl applyOp []

/-- Number of rows currently stored for one `(resource, username)` key. -/
def keyCount (db : DB) (username resource : String) : Nat :=
  (db.filter (fun row => row.username == username && row.resource == resource)).length

/-! Helper lemmas about lists. -/

/-- Searching a list equals taking the head of its filtered version. -/
theorem find?_eq_head?_filter {α : Type} (p : α → Bool) (l : List α) :
    l.find? p = (l.filter p).head? := by
  induction l with
  | nil => rfl
  | cons a t ih =>
    by_cases h : p a
    · rw [List.find?_cons_of_pos _ h, List.filter_cons_of_pos h, List.head?_cons]
    · rw [List.find?_cons_of_neg _ h, List.filter_cons_of_neg h, ih]

/-- Filtering with a predicate after deleting everything satisfying it leaves nothing. -/
theorem filter_after_delete {α : Type} (p : α → Bool) (l : List α) :
    (l.filter fun a => !(p a)).filter p = [] := by
  rw [List.filter_filter]
  induction l with
  | nil => rfl
  | cons a t ih => by_cases h : p a <;> simp [List.filter_cons, h, ih]

/-- Integer sums split along a boolean partition of the list. -/
theorem sum_map_filter_partition {α : Type} (p : α → Bool) (f : α → Int) (l : List α) :
    ((l.filter p).map f).sum + ((l.filter fun a => !(p a)).map f).sum = (l.map f).sum := by
  induction l with
  | nil => simp
  | cons a t ih =>
    by_cases h : p a <;>
      simp only [List.filter_cons, h, Bool.not_true, Bool.not_false, if_pos, if_neg,
        Bool.false_eq_true, not_false_eq_true, List.map_cons, List.sum_cons,
        ite_true, ite_false] <;> omega

/-- A prefix of a list whose `dropWhile` is trivial also has a trivial `dropWhile`. -/
theorem dropWhile_of_append_eq {α : Type} (p : α → Bool) (m t l : List α)
    (hl : l.dropWhile p = l) (hmt : m ++ t = l) : m.dropWhile p = m := by
  cases m with
  | nil => rfl
  | cons a m' =>
    have hal : a :: (m' ++ t) = l := by simpa using hmt
    subst hal
    have ha : p a = false := by
      by_contra hpa
      rw [Bool.not_eq_false] at hpa
      rw [List.dropWhile_cons, if_pos hpa] at hl
      have hlen : (List.dropWhile p (m' ++ t)).length = (m' ++ t).length + 1 := by
        rw [hl]; rfl
      have hle := (List.dropWhile_sublist (l := m' ++ t) p).length_le
      omega
    rw [List.dropWhile_cons, if_neg (by simp [ha])]

/-! Lemmas about slash stripping and resource normalisation. -/

/-- Right stripping removes only a suffix of the list. -/
theorem rstripSlash_append (m : List Char) : ∃ t, rstripSlash m ++ t = m := by
  refine ⟨(m.reverse.takeWhile (fun c => c == '/')).reverse, ?_⟩
  rw [rstripSlash, ← List.reverse_append, List.takeWhile_append_dropWhile,
    List.reverse_reverse]

/-- Left stripping after right stripping a left-stripped list does nothing. -/
theorem dropWhile_rstripSlash (m : List Char)
    (hm : m.dropWhile (fun c => c == '/') = m) :
    (rstripSlash m).dropWhile (fun c => c == '/') = rstripSlash m := by
  obtain ⟨t, ht⟩ := rstripSlash_append m
  exact dropWhile_of_append_eq _ _ t m hm ht

/-- Right stripping is idempotent. -/
theorem rstripSlash_idem (l : List Char) :
    rstripSlash (rstripSlash l) = rstripSlash l := by
  unfold rstripSlash
  rw [List.reverse_reverse, List.dropWhile_idempotent]

/-- Python `strip('/')` is idempotent. -/
theorem stripSlash_idem (l : List Char) : stripSlash (stripSlash l) = stripSlash l := by
  unfold stripSlash
  have h1 : lstripSlash (rstripSlash (lstripSlash l)) = rstripSlash (lstripSlash l) :=
    dropWhile_rstripSlash (lstripSlash l) (List.dropWhile_idempotent _ _)
  rw [h1, rstripSlash_idem]

/-- String-level `strip('/')` is idempotent. -/
theorem pyStripSlash_idem (s : String) :
    pyStripSlash (pyStripSlash s) = pyStripSlash s := by
  apply String.ext
  show stripSlash (pyStripSlash s).data = stripSlash s.data
  rw [show (pyStripSlash s).data = stripSlash s.data from rfl, stripSlash_idem]

/-- Normalised resources have no leading or trailing slashes left to strip. -/
theorem pyStripSlash_normalise (s : String) :
    pyStripSlash (normalise_resource s) = normalise_resource s := by
  unfold normalise_resource
  by_cases h : pyStripSlash s = "wiki"
  · rw [h]; decide
  · simp only [if_neg h]
    exact pyStripSlash_idem s

/-- Normalisation never outputs the bare string `"wiki"`. -/
theorem normalise_ne_wiki (s : String) : normalise_resource s ≠ "wiki" := by
  unfold normalise_resource
  by_cases h : pyStripSlash s = "wiki"
  · rw [h]; decide
  · simpa only [if_neg h] using h

/-- Normalisation is idempotent. -/
theorem normalise_idem (s : String) :
    normalise_resource (normalise_resource s) = normalise_resource s := by
  show (if pyStripSlash (normalise_resource s) = "wiki" then
      pyStripSlash (normalise_resource s) ++ "/WikiStart"
    else pyStripSlash (normalise_resource s)) = normalise_resource s
  rw [pyStripSlash_normalise s, if_neg (normalise_ne_wiki s)]

/-! Lemmas about the store operations. -/

/-- Searching with a predicate after deleting every row satisfying it finds nothing. -/
theorem find?_delete {α : Type} (p : α → Bool) (l : List α) :
    (l.filter fun a => !(p a)).find? p = none := by
  rw [find?_eq_head?_filter, filter_after_delete]
  rfl

/-- Reading back after a write with the same normalised resource sees the written
vote, or `0` when the write cleared it. -/
theorem get_vote_set_vote (db : DB) (u r₁ r₂ : String) (v : Int)
    (h : normalise_resource r₁ = normalise_resource r₂) :
    get_vote (set_vote db u r₁ v) u r₂ = if v = 0 then 0 else v := by
  simp only [get_vote, set_vote]
  rw [← h]
  by_cases hv : v = 0
  · simp only [if_pos hv, find?_delete]
  · simp only [if_neg hv, List.find?_append, find?_delete, Option.none_or]
    rw [List.find?_cons_of_pos _ (by simp)]
    simp [hv]

/-- Deleting rows can only shrink a key's row count. -/
theorem keyCount_filter_le (q p : Row → Bool) (db : DB) :
    ((db.filter fun row => !(p row)).filter q).length ≤ (db.filter q).length := by
  rw [← List.countP_eq_length_filter, ← List.countP_eq_length_filter, List.countP_filter]
  exact List.countP_mono_left fun x _ hx => by
    rw [Bool.and_eq_true] at hx
    exact hx.1

/-- One `set_vote` call preserves the at-most-one-row bound for every key. -/
theorem keyCount_set_vote_le (db : DB) (u r : String) (v : Int) (u₀ r₀ : String)
    (h : keyCount db u₀ r₀ ≤ 1) :
    keyCount (set_vote db u r v) u₀ r₀ ≤ 1 := by
  unfold keyCount at h ⊢
  simp only [set_vote]
  by_cases hv : v = 0
  · rw [if_pos hv]
    exact le_trans (keyCount_filter_le _ _ db) h
  · rw [if_neg hv, List.filter_append, List.length_append]
    by_cases hkey : u₀ = u ∧ r₀ = normalise_resource r
    · obtain ⟨hu, hr⟩ := hkey
      subst hu
      subst hr
      rw [filter_after_delete]
      simp
    · have hq : ((u : String) == u₀ && (normalise_resource r == r₀)) = false := by
        by_contra hq'
        rw [Bool.not_eq_false, Bool.and_eq_true, beq_iff_eq, beq_iff_eq] at hq'
        exact hkey ⟨hq'.1.symm, hq'.2.symm⟩
      have h2 : (List.filter (fun row => row.username == u₀ && row.resource == r₀)
          [(⟨normalise_resource r, u, v⟩ : Row)]).length = 0 := by
        simp only [List.filter, hq]
        rfl
      have h3 := keyCount_filter_le (fun row => row.username == u₀ && row.resource == r₀)
        (fun row => row.username == u && row.resource == normalise_resource r) db
      omega

/-- Every table reachable from the empty table has at most one row per key. -/
theorem run_keyCount_le (ops : List Op) (u r : String) :
    keyCount (run ops) u r ≤ 1 := by
  suffices h : ∀ db : DB, (∀ u' r', keyCount db u' r' ≤ 1) →
      ∀ u' r', keyCount (ops.foldl applyOp db) u' r' ≤ 1 by
    exact h [] (fun u' r' => by simp [keyCount]) u r
  induction ops with
  | nil => exact fun db hdb => hdb
  | cons op t ih =>
    intro db hdb
    rw [List.foldl_cons]
    apply ih
    intro u' r'
    cases op with
    | set u₁ r₁ v₁ => exact keyCount_set_vote_le db u₁ r₁ v₁ u' r' (hdb u' r')

/-! Lemmas about the aggregate count. -/

/-- The `NULL`-handling in `get_vote_count` collapses to a plain sum over the
rows of the queried resource. -/
theorem get_vote_count_eq_sum (db : DB) (r : String) :
    get_vote_count db r =
      ((db.filter fun row => row.resource == normalise_resource r).map Row.vote).sum := by
  simp only [get_vote_count, sql_sum_votes]
  cases hfil : db.filter fun row => row.resource == normalise_resource r with
  | nil => rfl
  | cons a t =>
    by_cases hs : ((a :: t).map Row.vote).sum = 0 <;> simp [hs] <;> omega

/-- Under the one-row-per-key bound, a user's read vote is the sum of the votes
stored under that user's key. -/
theorem get_vote_eq_key_sum (db : DB) (u r : String)
    (h : keyCount db u (normalise_resource r) ≤ 1) :
    get_vote db u r =
      ((db.filter fun row =>
        row.username == u && row.resource == normalise_resource r).map Row.vote).sum := by
  simp only [get_vote]
  rw [find?_eq_head?_filter]
  cases hfil : db.filter fun row =>
      row.username == u && row.resource == normalise_resource r with
  | nil => rfl
  | cons a t =>
    cases t with
    | nil => by_cases ha : a.vote = 0 <;> simp [ha]
    | cons b t' =>
      exfalso
      unfold keyCount at h
      rw [hfil] at h
      simp at h

/-- Summing votes row by row equals summing them user by user, for any
duplicate-free user list covering every row. -/
theorem sum_per_user {us : List String} {rows : List Row}
    (hnd : us.Nodup) (hall : ∀ row ∈ rows, row.username ∈ us) :
    (rows.map Row.vote).sum =
      (us.map fun u =>
        ((rows.filter fun row => row.username == u).map Row.vote).sum).sum := by
  induction us generalizing rows with
  | nil =>
    cases rows with
    | nil => rfl
    | cons a t => exact absurd (hall a (List.mem_cons_self a t)) (by simp)
  | cons u us' ih =>
    rw [List.map_cons, List.sum_cons]
    rw [List.nodup_cons] at hnd
    obtain ⟨hu_notin, hnd'⟩ := hnd
    have hall' : ∀ row ∈ rows.filter fun row => !(row.username == u),
        row.username ∈ us' := by
      intro row hrow
      rw [List.mem_filter] at hrow
      obtain ⟨hmem, hne⟩ := hrow
      have hcons := hall row hmem
      rw [List.mem_cons] at hcons
      cases hcons with
      | inl heq => exact absurd heq (by simpa using hne)
      | inr h2 => exact h2
    have hsplit := sum_map_filter_partition (fun row => row.username == u) Row.vote rows
    have hmapcongr :
        (us'.map fun u' =>
          ((rows.filter fun row => row.username == u').map Row.vote).sum) =
        us'.map fun u' =>
          (((rows.filter fun row => !(row.username == u)).filter
            fun row => row.username == u').map Row.vote).sum := by
      apply List.map_congr_left
      intro u' hu'
      have hneq : u' ≠ u := fun heq => hu_notin (heq ▸ hu')
      rw [List.filter_filter]
      have hfeq : (rows.filter fun row => row.username == u') =
          rows.filter fun row => (row.username == u') && !(row.username == u) := by
        apply List.filter_congr
        intro row _
        by_cases hru : (row.username == u') = true
        · have hruu : (row.username == u) = false := by
            rw [beq_iff_eq] at hru
            rw [beq_eq_false_iff_ne, hru]
            exact hneq
          simp [hru, hruu]
        · simp [hru]
      rw [hfeq]
    rw [hmapcongr, ← ih hnd' hall']
    omega

/-- Aggregate decomposition: the vote count is the sum of the per-user read
votes over any duplicate-free list of users covering the resource's rows. -/
theorem count_eq_sum_get_vote (db : DB) (r : String) (us : List String)
    (hamop : ∀ u' r', keyCount db u' r' ≤ 1)
    (hnd : us.Nodup)
    (hall : ∀ row ∈ db, row.resource = normalise_resource r → row.username ∈ us) :
    get_vote_count db r = (us.map fun u => get_vote db u r).sum := by
  rw [get_vote_count_eq_sum]
  have hall' : ∀ row ∈ db.filter fun row => row.resource == normalise_resource r,
      row.username ∈ us := by
    intro row hrow
    rw [List.mem_filter] at hrow
    exact hall row hrow.1 (beq_iff_eq.mp hrow.2)
  rw [sum_per_user hnd hall']
  apply congrArg
  apply List.map_congr_left
  intro u hu
  rw [List.filter_filter, get_vote_eq_key_sum db u r (hamop u (normalise_resource r))]

/-- Reading a vote for an already-normalised resource reads the original key. -/
theorem get_vote_norm (db : DB) (u r : String) :
    get_vote db u (normalise_resource r) = get_vote db u r := by
  simp only [get_vote, normalise_idem]

/-- Writing a zero vote is exactly the deletion of the key's rows. -/
theorem set_vote_zero (db : DB) (u r : String) :
    set_vote db u r 0 =
      db.filter fun row => !(row.username == u && row.resource == normalise_resource r) := by
  simp [set_vote]

/-- The request handler's store effect, written as one conditional. -/
theorem process_request_spec (db : DB) (u d r : String) :
    process_request db u d r =
      if get_vote db u r = dir_vote d
      then (set_vote db u (normalise_resource r) 0, 0)
      else (set_vote db u (normalise_resource r) (dir_vote d), dir_vote d) := by
  simp only [process_request]
  rw [get_vote_norm]

/-- The up/down mapping never produces the vote value zero. -/
theorem dir_vote_ne_zero (d : String) : dir_vote d ≠ 0 := by
  unfold dir_vote
  by_cases hd : (d == "up") = true <;> simp [hd]

/-! Claim theorems. -/

/-- Claim C1: for every user, resource and non-zero vote value, reading the vote
back immediately after `set_vote` returns the value just written. -/
theorem C1_set_then_get (db : DB) (u r : String) (v : Int) (hv : v ≠ 0) :
    get_vote (set_vote db u r v) u r = v := by
  rw [get_vote_set_vote db u r r v rfl, if_neg hv]

/-- Witness for C1 at a concrete input. -/
theorem C1_set_then_get_witness :
    (1 : Int) ≠ 0 ∧ get_vote (set_vote [] "alice" "ticket/1" 1) "alice" "ticket/1" = 1 :=
  ⟨by decide, C1_set_then_get [] "alice" "ticket/1" 1 (by decide)⟩

/-- Claim C3: every state reachable by a sequence of `set_vote` operations
stores at most one row per (resource, username) pair, because `set_vote`
deletes the key's rows before inserting. -/
theorem C3_at_most_one_row (ops : List Op) (u r : String) :
    keyCount (run ops) u r ≤ 1 :=
  run_keyCount_le ops u r

/-- Claim C4: clearing a vote deletes the stored row: after `set_vote` with any
value followed by `set_vote` with `0`, the read vote is `0` and no row for the
key remains in the table. -/
theorem C4_clear_deletes_row (db : DB) (u r : String) (v : Int) :
    get_vote (set_vote (set_vote db u r v) u r 0) u r = 0 ∧
    (set_vote (set_vote db u r v) u r 0).filter
      (fun row => row.username == u && row.resource == normalise_resource r) = [] := by
  constructor
  · rw [get_vote_set_vote _ u r r 0 rfl]
    simp
  · rw [set_vote_zero, filter_after_delete]

/-- Claim C5: `get_vote_count` returns the integer sum of the stored vote values
for the normalised resource, and exactly `0` when no rows exist for it. -/
theorem C5_count_sum (db : DB) (r : String) :
    get_vote_count db r =
      ((db.filter fun row => row.resource == normalise_resource r).map Row.vote).sum ∧
    ((db.filter fun row => row.resource == normalise_resource r) = [] →
      get_vote_count db r = 0) := by
  refine ⟨get_vote_count_eq_sum db r, fun h => ?_⟩
  rw [get_vote_count_eq_sum db r, h]
  rfl

/-- Witness for C5 at a concrete input with no rows. -/
theorem C5_count_sum_witness : get_vote_count [] "ticket/9" = 0 :=
  (C5_count_sum [] "ticket/9").2 (by decide)

/-- Claim C7: normalisation strips leading and trailing slashes and
canonicalises the bare `"wiki"` to `"wiki/WikiStart"`, so the three spellings
yield the same canonical string and collide on the same vote row. -/
theorem C7_normalisation :
    normalise_resource "/wiki/" = "wiki/WikiStart" ∧
    normalise_resource "wiki" = "wiki/WikiStart" ∧
    normalise_resource "/wiki" = "wiki/WikiStart" ∧
    get_vote (set_vote [] "alice" "/wiki/" 1) "alice" "/wiki" = 1 := by
  decide

/-- Claim C10: normalisation is idempotent on strings, and the canonical start
page string `"wiki/WikiStart"` is a fixed point. -/
theorem C10_normalise_idem (s : String) :
    normalise_resource (normalise_resource s) = normalise_resource s ∧
    normalise_resource "wiki/WikiStart" = "wiki/WikiStart" :=
  ⟨normalise_idem s, by decide⟩

/-- Claim C2: toggle semantics of the request handler: when the caller's stored
vote equals the requested direction the effective new vote is `0`, otherwise it
is the requested direction; consequently voting up twice from a no-vote state
ends at `0`, and voting up then down ends at `-1`. -/
theorem C2_toggle (db : DB) (u d r : String) :
    (get_vote db u r = dir_vote d →
      (process_request db u d r).2 = 0 ∧
      get_vote (process_request db u d r).1 u r = 0) ∧
    (get_vote db u r ≠ dir_vote d →
      (process_request db u d r).2 = dir_vote d ∧
      get_vote (process_request db u d r).1 u r = dir_vote d) ∧
    (get_vote db u r = 0 →
      get_vote (process_request (process_request db u "up" r).1 u "up" r).1 u r = 0) ∧
    (get_vote db u r = 0 →
      get_vote (process_request (process_request db u "up" r).1 u "down" r).1 u r = -1) := by
  have hset0 : ∀ db' : DB, get_vote (set_vote db' u (normalise_resource r) 0) u r = 0 := by
    intro db'
    rw [get_vote_set_vote db' u _ r 0 (normalise_idem r)]
    simp
  have hsetd : ∀ (db' : DB) (d' : String),
      get_vote (set_vote db' u (normalise_resource r) (dir_vote d')) u r = dir_vote d' := by
    intro db' d'
    rw [get_vote_set_vote db' u _ r _ (normalise_idem r), if_neg (dir_vote_ne_zero d')]
  refine ⟨fun h => ?_, fun h => ?_, fun h0 => ?_, fun h0 => ?_⟩
  · rw [process_request_spec, if_pos h]
    exact ⟨rfl, hset0 db⟩
  · rw [process_request_spec, if_neg h]
    exact ⟨rfl, hsetd db d⟩
  · have h1 : get_vote db u r ≠ dir_vote "up" := by rw [h0]; decide
    have e1 : (process_request db u "up" r).1 =
        set_vote db u (normalise_resource r) (dir_vote "up") := by
      rw [process_request_spec, if_neg h1]
    rw [e1]
    have h2 : get_vote (set_vote db u (normalise_resource r) (dir_vote "up")) u r =
        dir_vote "up" := hsetd db "up"
    have e2 : (process_request (set_vote db u (normalise_resource r) (dir_vote "up"))
        u "up" r).1 =
        set_vote (set_vote db u (normalise_resource r) (dir_vote "up")) u
          (normalise_resource r) 0 := by
      rw [process_request_spec, if_pos h2]
    rw [e2]
    exact hset0 _
  · have h1 : get_vote db u r ≠ dir_vote "up" := by rw [h0]; decide
    have e1 : (process_request db u "up" r).1 =
        set_vote db u (normalise_resource r) (dir_vote "up") := by
      rw [process_request_spec, if_neg h1]
    rw [e1]
    have h3 : get_vote (set_vote db u (normalise_resource r) (dir_vote "up")) u r ≠
        dir_vote "down" := by
      rw [hsetd db "up"]; decide
    have e3 : (process_request (set_vote db u (normalise_resource r) (dir_vote "up"))
        u "down" r).1 =
        set_vote (set_vote db u (normalise_resource r) (dir_vote "up")) u
          (normalise_resource r) (dir_vote "down") := by
      rw [process_request_spec, if_neg h3]
    rw [e3]
    rw [hsetd _ "down"]
    decide

/-- Witness for C2 at a concrete input: up then down ends at -1. -/
theorem C2_toggle_witness :
    get_vote (process_request (process_request [] "u" "up" "r").1 "u" "down" "r").1
      "u" "r" = -1 :=
  (C2_toggle [] "u" "up" "r").2.2.2 (by decide)

/-- Claim C6: in every reachable state, the aggregate count of a resource equals
the sum of the per-user read votes over any duplicate-free list of users that
covers every user with a stored vote on that resource. -/
theorem C6_aggregate (ops : List Op) (r : String) (us : List String)
    (hnd : us.Nodup)
    (hall : ∀ row ∈ run ops, row.resource = normalise_resource r → row.username ∈ us) :
    get_vote_count (run ops) r = (us.map fun u => get_vote (run ops) u r).sum :=
  count_eq_sum_get_vote (run ops) r us (fun u' r' => run_keyCount_le ops u' r') hnd hall

/-- Witness for C6 at a concrete input. -/
theorem C6_aggregate_witness :
    get_vote_count (run [Op.set "alice" "t" 1, Op.set "bob" "t" (-1)]) "t" =
      ((["alice", "bob"].map fun u =>
        get_vote (run [Op.set "alice" "t" 1, Op.set "bob" "t" (-1)]) u "t")).sum :=
  C6_aggregate [Op.set "alice" "t" 1, Op.set "bob" "t" (-1)] "t" ["alice", "bob"]
    (by decide) (by decide)

/-- Counterexample to claim C8: `set_vote` performs no range check at the API
boundary, so the out-of-range value `2` is inserted into the table and read
back; no rejection happens. -/
theorem C8_counterexample :
    set_vote [] "alice" "ticket/1" 2 = [⟨"ticket/1", "alice", 2⟩] ∧
    get_vote (set_vote [] "alice" "ticket/1" 2) "alice" "ticket/1" = 2 := by
  decide

/-- Claim C8 as amended: `set_vote` rejects nothing: every non-zero requested
value, also outside `{-1,+1}`, reaches storage as an inserted row; only the
request handler bounds what it writes, its effective vote always lying in
`{-1,0,+1}`. -/
theorem C8_no_validation (db : DB) (u r d : String) (v : Int) (hv : v ≠ 0) :
    (∃ row ∈ set_vote db u r v, row.vote = v) ∧
    ((process_request db u d r).2 = -1 ∨ (process_request db u d r).2 = 0 ∨
      (process_request db u d r).2 = 1) := by
  constructor
  · refine ⟨⟨normalise_resource r, u, v⟩, ?_, rfl⟩
    simp only [set_vote, if_neg hv]
    exact List.mem_append.mpr (Or.inr (by simp))
  · rw [process_request_spec]
    by_cases hc : get_vote db u r = dir_vote d
    · rw [if_pos hc]
      right; left; rfl
    · rw [if_neg hc]
      unfold dir_vote
      by_cases hd : (d == "up") = true
      · rw [if_pos hd]
        right; right; rfl
      · rw [if_neg hd]
        left; rfl

/-- Witness for the amended C8 at a concrete input. -/
theorem C8_no_validation_witness :
    (∃ row ∈ set_vote [] "u" "r" 5, row.vote = 5) ∧
    ((process_request [] "u" "up" "r").2 = -1 ∨ (process_request [] "u" "up" "r").2 = 0 ∨
      (process_request [] "u" "up" "r").2 = 1) :=
  C8_no_validation [] "u" "r" "up" 5 (by decide)

/-- Claim C9: the presentation string is the aggregate count rendered with an
explicit sign: a non-negative count always carries a leading `'+'`, and counts
`3`, `-1` and `0` render as `"+3"`, `"-1"` and `"+0"`. -/
theorem C9_signed_format (ops : List Op) (r : String) :
    (0 ≤ get_vote_count (run ops) r → (str_count (run ops) r).data.take 1 = ['+']) ∧
    (get_vote_count (run ops) r = 3 → str_count (run ops) r = "+3") ∧
    (get_vote_count (run ops) r = -1 → str_count (run ops) r = "-1") ∧
    (get_vote_count (run ops) r = 0 → str_count (run ops) r = "+0") := by
  refine ⟨fun h => ?_, fun h => ?_, fun h => ?_, fun h => ?_⟩
  · simp only [str_count, format_plus_i]
    rw [if_neg (by omega : ¬ get_vote_count (run ops) r < 0)]
    rw [String.data_append]
    rfl
  · simp only [str_count]
    rw [h]
    decide
  · simp only [str_count]
    rw [h]
    decide
  · simp only [str_count]
    rw [h]
    decide

/-- Witness for C9 at a concrete input. -/
theorem C9_signed_format_witness :
    str_count (run [Op.set "a" "r" (-1)]) "r" = "-1" :=
  (C9_signed_format [Op.set "a" "r" (-1)] "r").2.2.1 (by decide)

